import Mathlib

/-!
Verification of the monster-stan LinkedIn voice-cloning assistant.

This file gives a shallow embedding, in Lean, of the algorithmic core of the
repository and proves (or refutes) the frozen specification claims about it.

Strings are modelled as `List Char`; JavaScript numbers are modelled as exact
rationals (`ℚ`).  Each definition is a direct translation of the function of
the same name in the TypeScript source; external effects (database writes,
LLM calls) are modelled by returning the data that would be written, or by
taking the external call's outcome as an explicit argument.
-/

namespace MonsterStan

/-! ### Text cleaning (`src/lib/utils/text-cleaning.ts`)

`removeTrackingUrls` applies the JavaScript regular expression

  `/https?:\/\/[^\s]+[?&](?:utm_|ref=|source=|medium=)[^\s]*\/gi`

globally (leftmost match, greedy, case-insensitive), replacing each match with
the empty string.  We embed this as a character scanner: at each position we
ask whether a match starts there (`matchesAt`); a match necessarily extends to
the end of the maximal non-whitespace run, so the scanner drops that run and
continues after it, exactly as the JS engine resumes scanning at the match end.
-/

/-- The JavaScript `\s` character class (WhiteSpace and LineTerminator),
by code point: space, tab, LF, CR, VT, FF, NBSP, U+1680, U+2000-U+200A,
U+2028, U+2029, U+202F, U+205F, U+3000 and the BOM U+FEFF. -/
def isJsWs (c : Char) : Bool :=
  c.toNat = 32 || c.toNat = 9 || c.toNat = 10 || c.toNat = 13 ||
  c.toNat = 11 || c.toNat = 12 ||
  c.toNat = 0xA0 || c.toNat = 0x1680 ||
  (0x2000 ≤ c.toNat && c.toNat ≤ 0x200A) ||
  c.toNat = 0x2028 || c.toNat = 0x2029 || c.toNat = 0x202F ||
  c.toNat = 0x205F || c.toNat = 0x3000 || c.toNat = 0xFEFF

/-- Case-folding used by the regex `i` flag on ASCII patterns: ASCII
upper-case letters map to lower-case, all other characters are unchanged. -/
def lcc (c : Char) : Char :=
  if 65 ≤ c.toNat ∧ c.toNat ≤ 90 then Char.ofNat (c.toNat + 32) else c

/-- Case-insensitive "starts with" for a (lower-case) literal pattern. -/
def startsWithCI (pat : List Char) (l : List Char) : Bool :=
  (l.take pat.length).map lcc == pat

/-- Length of the scheme matched by `https?:\/\/` at the head of `l`
(`8` for `https://`, `7` for `http://`, the `s?` being greedy). -/
def schemeLen (l : List Char) : Option Nat :=
  if startsWithCI ("https://".toList) l then some 8
  else if startsWithCI ("http://".toList) l then some 7
  else none

/-- The alternation `utm_|ref=|source=|medium=` at the head of `l`. -/
def trackingKeywordAt (l : List Char) : Bool :=
  startsWithCI ("utm_".toList) l || startsWithCI ("ref=".toList) l ||
  startsWithCI ("source=".toList) l || startsWithCI ("medium=".toList) l

/-- The fragment `[?&](?:utm_|ref=|source=|medium=)` at the head of `l`. -/
def kwAt (l : List Char) : Bool :=
  match l with
  | [] => false
  | c :: rest => (c == '?' || c == '&') && trackingKeywordAt rest

/-- After the scheme, `[^\s]+[?&](?:utm_|...)` : at least one non-whitespace
character, then the `[?&]` keyword fragment. -/
def kwFrom : List Char → Bool
  | [] => false
  | c :: rest => !isJsWs c && (kwAt rest || kwFrom rest)

/-- Whether a match of the tracking-URL regex starts at the head of `l`.
The trailing `[^\s]*` always succeeds, so a match starting here extends
exactly to the end of the maximal non-whitespace run. -/
def matchesAt (l : List Char) : Bool :=
  match schemeLen l with
  | some k => kwFrom (l.drop k)
  | none => false

/-- Global replacement of every match of the tracking-URL regex by the empty
string (`text.replace(/https?:\/\/[^\s]+[?&](?:utm_|ref=|source=|medium=)[^\s]*\/gi, '')`).
When a match fires its first character is `h`/`H` (non-whitespace), so the
matched span is `(c :: rest).takeWhile (!isJsWs ·)` and scanning resumes at
`rest.dropWhile (!isJsWs ·)`. -/
def removeTrackingUrls (l : List Char) : List Char :=
  match l with
  | [] => []
  | c :: rest =>
    if matchesAt (c :: rest) then
      removeTrackingUrls (rest.dropWhile (fun d => !isJsWs d))
    else
      c :: removeTrackingUrls rest
termination_by l.length
decreasing_by
  · exact Nat.lt_succ_of_le (List.dropWhile_sublist _).length_le
  · simp

/-- The replacement `text.replace(/\s+/g, ' ')`: each maximal whitespace run
becomes a single space. -/
def collapseWs : List Char → List Char
  | [] => []
  | c :: rest =>
    if isJsWs c then ' ' :: collapseWs (rest.dropWhile isJsWs)
    else c :: collapseWs rest
termination_by l => l.length
decreasing_by
  · exact Nat.lt_succ_of_le (List.dropWhile_sublist _).length_le
  · simp

/-- The replacement `text.replace(/^\s+|\s+$/g, '')`: strip the maximal
leading and trailing whitespace runs. -/
def jsTrim (l : List Char) : List Char :=
  ((l.dropWhile isJsWs).reverse.dropWhile isJsWs).reverse

/-- `normalizeWhitespace` from `text-cleaning.ts`: collapse whitespace runs
to single spaces, then trim. -/
def normalizeWhitespace (text : List Char) : List Char :=
  jsTrim (collapseWs text)

/-- `cleanLinkedInPostText` from `text-cleaning.ts`.  The guard
`!rawText || typeof rawText !== 'string'` returns `''`; for a string input
the only falsy value is the empty string. -/
def cleanLinkedInPostText (rawText : List Char) : List Char :=
  if rawText = [] then []
  else normalizeWhitespace (removeTrackingUrls rawText)

/-! ### Engagement analysis (`src/lib/services/analysis.ts`) -/

/-- A row of `linkedin_posts` as read by the analysis service.  Engagement
counters are JavaScript numbers, modelled as exact rationals; `text` and
`posted_at` may be `null`. -/
structure LinkedInPost where
  id : Nat
  text : Option (List Char)
  posted_at : Option Int
  likes_count : ℚ
  comments_count : ℚ
  shares_count : ℚ
  impressions_count : Option ℚ
deriving Repr, DecidableEq

/-- `computeEngagementScore`: weighted sum
`likes*1 + comments*2 + shares*3 + impressions*0.1`, the impressions term
contributing `0` when `impressions_count` is `null`. -/
def computeEngagementScore (post : LinkedInPost) : ℚ :=
  let likesWeight : ℚ := 1
  let commentsWeight : ℚ := 2
  let sharesWeight : ℚ := 3
  let impressionsWeight : ℚ := 1 / 10
  let baseScore :=
    post.likes_count * likesWeight +
    post.comments_count * commentsWeight +
    post.shares_count * sharesWeight
  let impressionsBonus :=
    match post.impressions_count with
    | some i => i * impressionsWeight
    | none => 0
  baseScore + impressionsBonus

/-- One update written back by `updateEngagementScores`: the post together
with its computed `engagement_score` and `is_high_performing` flag. -/
structure ScoredPost where
  post : LinkedInPost
  engagement_score : ℚ
  is_high_performing : Bool
deriving Repr, DecidableEq

/-- The comparator `(a, b) => b.engagement_score - a.engagement_score` used
with the (stable) JavaScript sort: `a` may precede `b` iff `b`'s score is at
most `a`'s. -/
def scoreDescLe (a b : LinkedInPost × ℚ) : Bool := decide (b.2 ≤ a.2)

/-- `Math.max(1, Math.ceil(n * 0.3))` with `topPercent = 0.3`. -/
def highPerformingCount (n : Nat) : Nat :=
  max 1 (Int.toNat ⌈(n : ℚ) * (3 / 10)⌉)

/-- `updateEngagementScores`: score every post, sort descending by score
(stable sort, as JavaScript's `Array.prototype.sort`), and flag exactly the
first `max(1, ceil(0.3 * N))` entries as high-performing.  Returns the list
of updates in iteration (sorted) order; on an empty input nothing is done. -/
def updateEngagementScores (posts : List LinkedInPost) : List ScoredPost :=
  if posts.length = 0 then []
  else
    let postsWithScores := posts.map (fun post => (post, computeEngagementScore post))
    let sorted := postsWithScores.mergeSort scoreDescLe
    let hpCount := highPerformingCount sorted.length
    sorted.enum.map (fun e => ⟨e.2.1, e.2.2, decide (e.1 < hpCount)⟩)

/-! ### Style profile generation (`src/lib/services/analysis.ts`, lines 243-362) -/

/-- Confidence tiers for a generated style profile. -/
inductive DataConfidenceLevel where
  | HIGH
  | MEDIUM
  | LOW
deriving Repr, DecidableEq

/-- The filter `(t): t is string => t !== null && t.trim().length > 0` applied
to `candidatePosts.map((p) => p.text)` in `generateStyleProfile`. -/
def postTextsOf (candidatePosts : List LinkedInPost) : List (List Char) :=
  (candidatePosts.map (fun p => p.text)).filterMap (fun t =>
    match t with
    | some s => if (jsTrim s).length > 0 then some s else none
    | none => none)

/-- JavaScript truthiness of a `string | null` value: non-null and non-empty. -/
def aboutTruthy : Option (List Char) → Bool
  | some s => !(s == [])
  | none => false

/-- The confidence computation of `generateStyleProfile` (lines 249-264):
`none` models the `throw` on zero usable texts; otherwise the tier starts at
`LOW`, is upgraded to `HIGH` on at least 10 usable texts plus a truthy
"about" section, else to `MEDIUM` on at least 5 usable texts. -/
def styleConfidence (candidatePosts : List LinkedInPost)
    (profileAbout : Option (List Char)) : Option DataConfidenceLevel :=
  if (postTextsOf candidatePosts).length = 0 then none
  else if (postTextsOf candidatePosts).length ≥ 10 && aboutTruthy profileAbout then some .HIGH
  else if (postTextsOf candidatePosts).length ≥ 5 then some .MEDIUM
  else some .LOW

/-- A JSON value as produced by `JSON.parse` (objects collapsed to `jobj`;
no claim depends on object-valued fields). -/
inductive JsonValue where
  | jnull
  | jbool (b : Bool)
  | jnum (q : ℚ)
  | jstr (s : List Char)
  | jarr (elems : List JsonValue)
  | jobj

/-- The parsed style-extraction response before validation: each StyleProfile
field holds an arbitrary JSON value. -/
structure RawStyleJson where
  tone : JsonValue
  formality_level : JsonValue
  average_length_words : JsonValue
  emoji_usage : JsonValue
  structure_patterns : JsonValue
  hook_patterns : JsonValue
  hashtag_style : JsonValue
  favorite_topics : JsonValue
  common_phrases_or_cadence_examples : JsonValue
  paragraph_density : JsonValue

/-- `typeof v === 'string'`. -/
def isStr : JsonValue → Bool
  | .jstr _ => true
  | _ => false

/-- `typeof v === 'number'`. -/
def isNum : JsonValue → Bool
  | .jnum _ => true
  | _ => false

/-- `Array.isArray(v)`. -/
def isArr : JsonValue → Bool
  | .jarr _ => true
  | _ => false

/-- Whether `v` is an array whose elements are all strings (the type the
TypeScript `StyleJson` declaration assigns to the four list fields). -/
def isStrArray : JsonValue → Bool
  | .jarr elems => elems.all isStr
  | _ => false

/-- `['a', 'b', ...].includes(v)` for a string array against a JSON value. -/
def strIn (vals : List (List Char)) : JsonValue → Bool
  | .jstr s => vals.contains s
  | _ => false

/-- The allowed `emoji_usage` values. -/
def emojiUsageValues : List (List Char) :=
  ["none".toList, "minimal".toList, "moderate".toList, "heavy".toList]

/-- The allowed `paragraph_density` values. -/
def paragraphDensityValues : List (List Char) :=
  ["compact".toList, "spaced".toList, "varied".toList]

/-- The structure validation of `generateStyleProfile` (lines 341-352):
the conjunction of the field checks the source performs.  Note that the four
list fields are checked with `Array.isArray` only. -/
def validStyleJson (parsed : RawStyleJson) : Bool :=
  isStr parsed.tone &&
  isNum parsed.formality_level &&
  isNum parsed.average_length_words &&
  strIn emojiUsageValues parsed.emoji_usage &&
  isArr parsed.structure_patterns &&
  isArr parsed.hook_patterns &&
  isStr parsed.hashtag_style &&
  isArr parsed.favorite_topics &&
  isArr parsed.common_phrases_or_cadence_examples &&
  strIn paragraphDensityValues parsed.paragraph_density

/-- The accept/reject step of `generateStyleProfile` on a parsed response:
`throw new Error('Invalid style JSON structure')` on a failed check. -/
def parseStyleResponse (parsed : RawStyleJson) : Except String RawStyleJson :=
  if validStyleJson parsed then .ok parsed
  else .error "Invalid style JSON structure"

/-- Steps 4-5 of `analyzeUserData`: `generateStyleProfile` validates the
parsed model response, and only on success does `storeStyleProfile` persist
it (prepended to the stored profiles); a validation error propagates and
nothing is stored. -/
def analyzeStoreStyle (parsed : RawStyleJson) (confidence : DataConfidenceLevel)
    (stored : List (RawStyleJson × DataConfidenceLevel)) :
    Except String (List (RawStyleJson × DataConfidenceLevel)) :=
  match parseStyleResponse parsed with
  | .error e => .error e
  | .ok styleJson => .ok ((styleJson, confidence) :: stored)

/-! ### Intent classification (`src/lib/ai/orchestrator.ts` lines 109-127,
`src/lib/ai/prompt-builder.ts` lines 373-391; both versions validate
identically) -/

/-- The closed intent set. -/
def allowedIntents : List String :=
  ["WRITE_POST", "ANALYZE_PROFILE", "STRATEGY", "OTHER"]

/-- The validation step of `classifyIntent` on the parsed response's
`intent` field: a value outside the closed set raises
`Invalid intent: ...`, which the surrounding catch rewraps as a
classification failure; an in-set value is returned unchanged. -/
def classifyIntentValidate (parsedIntent : String) : Except String String :=
  if allowedIntents.contains parsedIntent then .ok parsedIntent
  else .error ("Failed to parse intent classification: Invalid intent: " ++ parsedIntent)

/-! ### Fact validation (`src/lib/ai/prompt-builder.ts` lines 166-241 and
the caller `generateWritePostResponse`, lines 496-532) -/

/-- The shape of the validator model's response as seen by
`validateAgainstFacts`: missing/empty content, content that fails
`JSON.parse`, or a parsed object (whose `unsupportedClaims` field may be
absent, modelled by `none`). -/
inductive ValidatorResponse where
  | empty
  | unparseable (raw : String)
  | parsed (unsupportedClaims : Option (List String)) (allSupported : Bool)

/-- The result type of `validateAgainstFacts`. -/
structure ValidationResult where
  isValid : Bool
  unsupportedClaims : List String
deriving Repr, DecidableEq

/-- `validateAgainstFacts`, as a total function of the model response: empty
content yields `{ isValid: false, unsupportedClaims: ['Unable to validate'] }`,
a JSON parse failure yields `{ isValid: false, unsupportedClaims: ['Validation failed'] }`,
and a parsed object yields `{ isValid: allSupported, unsupportedClaims: claims || [] }`.
No branch throws. -/
def validateAgainstFacts : ValidatorResponse → ValidationResult
  | .empty => ⟨false, ["Unable to validate"]⟩
  | .unparseable _ => ⟨false, ["Validation failed"]⟩
  | .parsed claims allSupported => ⟨allSupported, claims.getD []⟩

/-- The caller's rewrite condition in `generateWritePostResponse`:
`!validation.isValid && validation.unsupportedClaims.length > 0`. -/
def rewriteTriggered (v : ValidationResult) : Bool :=
  !v.isValid && decide (0 < v.unsupportedClaims.length)

/-- The tail of `generateWritePostResponse` after validation: one
regeneration call when the rewrite condition holds, none otherwise.  Returns
the final text together with the number of regeneration calls made. -/
def writePostFinalText (draft rewritten : String) (r : ValidatorResponse) :
    String × Nat :=
  if rewriteTriggered (validateAgainstFacts r) then (rewritten, 1) else (draft, 0)

/-! ### Facts-block rendering and the orchestrator's retrieval step
(`src/lib/ai/prompt-builder.ts` lines 51-123 and 724-803,
`src/lib/ai/orchestrator.ts` lines 429-494) -/

/-- A row of `linkedin_profiles` as consumed by the prompt builder
(`experience_json` is carried in serialized form as rendered by
`JSON.stringify`). -/
structure LinkedInProfile where
  headline : Option String
  about : Option String
  location : Option String
  experience_json : Option String

/-- A long-term memory entry (content already in string form; the source
stringifies non-string content first). -/
structure LongTermMemory where
  summary_type : String
  content : String

/-- A chat message. -/
structure ChatMessage where
  role : String
  content : String

/-- JavaScript truthiness of a `string | null` value. -/
def strTruthy : Option String → Bool
  | some s => !(s == "")
  | none => false

/-- An apostrophe, kept out of string literals. -/
def apos : String := String.singleton (Char.ofNat 39)

/-- A post's extra analysis columns as read back by the orchestrator. -/
structure RagPost where
  post : LinkedInPost
  engagement_score : ℚ
  is_high_performing : Bool

/-- The RAG-post section of `buildFactsBlock` (prompt-builder version).
`fmtDate` models `new Date(...).toLocaleDateString()` and `fmtScore` models
`engagement_score.toFixed(1)`; both are locale/float formatting left
abstract. -/
def postFacts (fmtDate : Int → String) (fmtScore : ℚ → String)
    (ragPosts : List RagPost) : List String :=
  if ragPosts.length > 0 then
    ("RELEVANT POSTS FROM USER" ++ apos ++ "S LINKEDIN:") ::
      (ragPosts.enum.flatMap (fun e =>
        match e.2.post.text with
        | some t =>
          if t ≠ [] then
            ("Post " ++ toString (e.1 + 1) ++ ": " ++ String.mk t) ::
              ((match e.2.post.posted_at with
                | some d => ["Posted: " ++ fmtDate d]
                | none => []) ++
               (if e.2.is_high_performing then
                  ["Performance: High-performing (" ++ fmtScore e.2.engagement_score ++
                    " engagement score)"]
                else []))
          else []
        | none => []))
  else []

/-- The profile section of `buildFactsBlock`. -/
def profileFacts (profile : Option LinkedInProfile) : List String :=
  match profile with
  | none => []
  | some p =>
    "\nLINKEDIN PROFILE:" ::
      ((if strTruthy p.headline then ["Headline: " ++ p.headline.getD ""] else []) ++
       (if strTruthy p.about then ["About: " ++ p.about.getD ""] else []) ++
       (if strTruthy p.location then ["Location: " ++ p.location.getD ""] else []) ++
       (match p.experience_json with
        | some ej => ["Experience: " ++ ej]
        | none => []))

/-- The memory section of `buildFactsBlock`. -/
def memoryFacts (memory : List LongTermMemory) : List String :=
  if memory.length > 0 then
    "\nLONG-TERM MEMORY:" :: memory.map (fun mem => mem.summary_type ++ ": " ++ mem.content)
  else []

/-- The chat-history section of `buildFactsBlock` (`slice(-10)`). -/
def historyFacts (chatHistory : List ChatMessage) : List String :=
  if chatHistory.length > 0 then
    "\nRECENT CHAT HISTORY:" ::
      ((chatHistory.drop (chatHistory.length - 10)).map (fun msg => msg.role ++ ": " ++ msg.content))
  else []

/-- The degraded facts block emitted when no grounding data exists. -/
def noVerifiedDataFacts : String :=
  "FACTS BLOCK:\nNo verified data available.\n\nCRITICAL: Since no FACTS are available, you must ask the user for information or produce generic statements. Never invent facts."

/-- `buildFactsBlock` from `prompt-builder.ts`. -/
def buildFactsBlock (fmtDate : Int → String) (fmtScore : ℚ → String)
    (ragPosts : List RagPost) (profile : Option LinkedInProfile)
    (memory : List LongTermMemory) (chatHistory : List ChatMessage) : String :=
  let facts := postFacts fmtDate fmtScore ragPosts ++ profileFacts profile ++
               memoryFacts memory ++ historyFacts chatHistory
  if facts.length = 0 then noVerifiedDataFacts
  else
    "FACTS BLOCK:\n" ++ String.intercalate "\n" facts ++
      "\n\nCRITICAL RULES FOR USING FACTS:\n1. Only use information explicitly stated in FACTS above.\n2. Never invent biographical facts, roles, achievements, years, or personal details.\n3. Never assume or infer information not present in FACTS.\n4. If information is missing, ask the user a question or state that the information is not available.\n5. FACTS override STYLE - truth always comes before voice.\n6. Do not infer identity details from tone or style patterns."

/-- The outcome of the Retrieval Engine call `retrieveRelevantPosts(...)`:
either a list of posts or a thrown error. -/
inductive RetrievalOutcome where
  | ok (posts : List RagPost)
  | err (msg : String)

/-- Step 2 of `orchestrateResponse` in the shared-builder orchestrator
(`prompt-builder.ts` lines 732-743): the retrieval call is wrapped in
try/catch, an error is logged and the turn continues with `ragPosts = []`. -/
def ragStepPromptBuilder (requires_rag : Bool) (retrieval : RetrievalOutcome) :
    List RagPost :=
  if requires_rag then
    match retrieval with
    | .ok posts => posts
    | .err _ => []
  else []

/-- Step 2 of `orchestrateResponse` in `src/lib/ai/orchestrator.ts`
(lines 437-441): the retrieval call is not wrapped, so a thrown error
propagates out of `orchestrateResponse` and aborts the turn. -/
def ragStepOrchestratorTs (requires_rag : Bool) (retrieval : RetrievalOutcome) :
    Except String (List RagPost) :=
  if requires_rag then
    match retrieval with
    | .ok posts => .ok posts
    | .err e => .error e
  else .ok []

/-! ### Similarity ranking (`src/unnamed/part_009`, `retrieveRelevantPosts`) -/

/-- The `reduce((sum, val, i) => sum + val * other[i], 0)` dot product over
two equal-length lists. -/
def dotQ (a b : List ℚ) : ℚ :=
  (a.zip b).foldl (fun sum p => sum + p.1 * p.2) 0

/-- One entry pushed onto `similarities`.  The source stores
`similarity = dotProduct / (norm1 * norm2)` with `norm = Math.sqrt(normSq)`;
we carry the exact data `(dotProduct, normSq1, normSq2)`, representing the
value `dotProduct / (sqrt normSq1 * sqrt normSq2)` without rounding. -/
structure SimilarityEntry where
  postId : Nat
  dotProduct : ℚ
  normSq1 : ℚ
  normSq2 : ℚ
deriving Repr, DecidableEq

/-- The body of the similarity loop (`part_009` lines 95-130) for one stored
embedding that passed the number-array type guard: truncate both vectors to
the shared minimum length, compute the dot product and squared norms over
the truncated vectors, and skip the item (`continue`) only when the minimum
length is zero or a norm is zero (`Math.sqrt q = 0` iff `q = 0` for the
nonnegative squared norms).  The guard `raw.length > 0` is part of the type
guard on the raw value. -/
def similarityEntryFor (queryEmbedding : List ℚ) (postId : Nat)
    (embedding : List ℚ) : Option SimilarityEntry :=
  if embedding.length = 0 then none
  else
    let minLength := min embedding.length queryEmbedding.length
    if minLength = 0 then none
    else
      let truncatedEmbedding := embedding.take minLength
      let truncatedQuery := queryEmbedding.take minLength
      let dotProduct := dotQ truncatedEmbedding truncatedQuery
      let normSq1 := dotQ truncatedEmbedding truncatedEmbedding
      let normSq2 := dotQ truncatedQuery truncatedQuery
      if normSq1 = 0 ∨ normSq2 = 0 then none
      else some ⟨postId, dotProduct, normSq1, normSq2⟩

/-- The similarity loop over all stored embeddings for the user
(`push`/`continue` realised as `filterMap`). -/
def computeSimilarities (queryEmbedding : List ℚ)
    (items : List (Nat × List ℚ)) : List SimilarityEntry :=
  items.filterMap (fun item => similarityEntryFor queryEmbedding item.1 item.2)

/-- The comparator `(a, b) => b.similarity - a.similarity` (descending), as
the exact order on the represented values `dot / sqrt (normSq1 * normSq2)`:
`simLeDesc a b` holds iff `similarity b ≤ similarity a`, decided by sign
analysis and cross-multiplied squares (the squared norms are positive for
every stored entry). -/
def simLeDesc (a b : SimilarityEntry) : Bool :=
  let pa := a.normSq1 * a.normSq2
  let pb := b.normSq1 * b.normSq2
  if 0 ≤ a.dotProduct then
    if b.dotProduct ≤ 0 then true
    else decide (b.dotProduct ^ 2 * pa ≤ a.dotProduct ^ 2 * pb)
  else
    if 0 ≤ b.dotProduct then false
    else decide (a.dotProduct ^ 2 * pb ≤ b.dotProduct ^ 2 * pa)

/-- The ranking core of `retrieveRelevantPosts` in `part_009`: compute all
similarities, sort descending (stable), and return the top-K post ids (the
subsequent fetch returns the posts in this id order). -/
def retrieveRelevantPosts (queryEmbedding : List ℚ)
    (items : List (Nat × List ℚ)) (topK : Nat) : List Nat :=
  let similarities := computeSimilarities queryEmbedding items
  if similarities.length = 0 then []
  else ((similarities.mergeSort simLeDesc).take topK).map (fun s => s.postId)

/-! ### Post ingestion (`src/lib/services/linkedin-ingestion.ts`,
`storePostsData`, lines 232-303) -/

/-- A scraped post record as returned by the posts actor; every field is an
arbitrary JSON value. -/
structure ApifyLinkedinPost where
  text : JsonValue
  postedAtISO : JsonValue
  numLikes : JsonValue
  numComments : JsonValue
  numShares : JsonValue

/-- A row inserted into `linkedin_posts` by `storePostsData`. -/
structure PostRow where
  raw_text : List Char
  text : List Char
  posted_at : Option (List Char)
  likes_count : ℚ
  comments_count : ℚ
  shares_count : ℚ
  impressions_count : Option ℚ
  engagement_score : ℚ
  is_high_performing : Bool

/-- The guard `typeof postData.text === 'string' && postData.text.trim().length > 0
? postData.text : null`. -/
def rawTextOf (postData : ApifyLinkedinPost) : Option (List Char) :=
  match postData.text with
  | .jstr s => if (jsTrim s).length > 0 then some s else none
  | _ => none

/-- `storePostsData`: records without a usable text are skipped entirely;
for the rest a row is inserted with `raw_text` the scraped text and `text`
its cleaned form, counters defaulted to `0` when not numbers, and
analysis-phase fields zero-initialised. -/
def storePostsData (postsData : List ApifyLinkedinPost) : List PostRow :=
  postsData.filterMap (fun postData =>
    match rawTextOf postData with
    | none => none
    | some rawText =>
      some {
        raw_text := rawText
        text := cleanLinkedInPostText rawText
        posted_at :=
          (match postData.postedAtISO with
           | .jstr s => if s = [] then none else some s
           | _ => none)
        likes_count := (match postData.numLikes with | .jnum q => q | _ => 0)
        comments_count := (match postData.numComments with | .jnum q => q | _ => 0)
        shares_count := (match postData.numShares with | .jnum q => q | _ => 0)
        impressions_count := none
        engagement_score := 0
        is_high_performing := false })

/-! ### Helper lemmas -/

/-- Filtering the high-performing flag out of the index-marked list keeps
exactly the first `k - n` entries. -/
lemma enumFrom_mark_filter (k : Nat) :
    ∀ (s : List (LinkedInPost × ℚ)) (n : Nat),
      (((List.enumFrom n s).map
          (fun e => ScoredPost.mk e.2.1 e.2.2 (decide (e.1 < k)))).filter
          (fun e => e.is_high_performing)) =
        (s.take (k - n)).map (fun p => ScoredPost.mk p.1 p.2 true)
  | [], n => by simp
  | a :: t, n => by
    by_cases hn : n < k
    · have hk : k - n = (k - (n + 1)) + 1 := by omega
      simp [List.enumFrom, hn, enumFrom_mark_filter k t (n + 1), hk]
    · have hk : k - n = 0 := by omega
      have hk1 : k - (n + 1) = 0 := by omega
      simp [List.enumFrom, hn, enumFrom_mark_filter k t (n + 1), hk, hk1]

/-- `enumFrom` preserves pairwise relations on the underlying elements. -/
lemma pairwise_enumFrom {α : Type} {R : α → α → Prop} :
    ∀ (s : List α) (n : Nat), s.Pairwise R →
      (List.enumFrom n s).Pairwise (fun a b => R a.2 b.2)
  | [], _, _ => List.Pairwise.nil
  | a :: t, n, h => by
    rcases List.pairwise_cons.mp h with ⟨ha, ht⟩
    refine List.pairwise_cons.mpr ⟨?_, pairwise_enumFrom t (n + 1) ht⟩
    intro e he
    exact ha e.2 (List.enumFrom_map_snd (n + 1) t ▸ List.mem_map_of_mem Prod.snd he)

/-- Mapping the first projection over graph pairs is the identity. -/
lemma map_fst_pair {α β : Type} (f : α → β) (l : List α) :
    l.map (Prod.fst ∘ fun a => (a, f a)) = l := by
  induction l with
  | nil => rfl
  | cons a t ih => simpa using ih

/-- The high-performing count never exceeds the post count. -/
lemma highPerformingCount_le (n : Nat) (hn : 1 ≤ n) : highPerformingCount n ≤ n := by
  unfold highPerformingCount
  have h1 : ⌈(n : ℚ) * (3 / 10)⌉ ≤ (n : ℤ) := by
    rw [Int.ceil_le]
    push_cast
    nlinarith [Nat.cast_nonneg (α := ℚ) n]
  have h2 : Int.toNat ⌈(n : ℚ) * (3 / 10)⌉ ≤ n := by
    rw [Int.toNat_le]
    exact_mod_cast h1
  omega

/-! ### Claim theorems -/

/-- C1: for a non-empty post list, `updateEngagementScores` marks exactly
`max(1, ceil(0.3 * N))` posts as high-performing, and the marked posts are
exactly the top slice of the stable descending-by-score sort; the updates are
emitted in descending score order and cover exactly the input posts. -/
theorem updateEngagementScores_top_slice (posts : List LinkedInPost) (h : posts ≠ []) :
    (updateEngagementScores posts).countP (fun e => e.is_high_performing) =
        highPerformingCount posts.length ∧
    ((updateEngagementScores posts).filter (fun e => e.is_high_performing)).map
        (fun e => e.post) =
      (((posts.map (fun post => (post, computeEngagementScore post))).mergeSort
          scoreDescLe).take (highPerformingCount posts.length)).map Prod.fst ∧
    (updateEngagementScores posts).Pairwise
      (fun a b => b.engagement_score ≤ a.engagement_score) ∧
    ((updateEngagementScores posts).map (fun e => e.post)).Perm posts ∧
    highPerformingCount posts.length = max 1 (Int.toNat ⌈(posts.length : ℚ) * (3 / 10)⌉) := by
  have hlen : ¬ posts.length = 0 := by simp [h]
  have hone : 1 ≤ posts.length := Nat.one_le_iff_ne_zero.mpr hlen
  unfold updateEngagementScores
  simp only [hlen, if_false]
  have hslen :
      ((posts.map (fun post => (post, computeEngagementScore post))).mergeSort
        scoreDescLe).length = posts.length := by
    rw [List.length_mergeSort, List.length_map]
  set sorted :=
    (posts.map (fun post => (post, computeEngagementScore post))).mergeSort scoreDescLe
    with hsorted
  have hk : highPerformingCount sorted.length = highPerformingCount posts.length := by
    rw [hslen]
  have hkle : highPerformingCount posts.length ≤ posts.length :=
    highPerformingCount_le posts.length hone
  have hfilter :
      ((sorted.enum.map
          (fun e => ScoredPost.mk e.2.1 e.2.2
            (decide (e.1 < highPerformingCount sorted.length)))).filter
          (fun e => e.is_high_performing)) =
        (sorted.take (highPerformingCount posts.length)).map
          (fun p => ScoredPost.mk p.1 p.2 true) := by
    rw [List.enum, enumFrom_mark_filter, hk, Nat.sub_zero]
  refine ⟨?_, ?_, ?_, ?_, rfl⟩
  · rw [List.countP_eq_length_filter, hfilter, List.length_map, List.length_take, hslen]
    omega
  · rw [hfilter, List.map_map, List.map_take, List.map_take]
    rfl
  · rw [List.pairwise_map]
    have hs : sorted.Pairwise (fun a b => scoreDescLe a b = true) := by
      apply List.sorted_mergeSort
      · intro a b c hab hbc
        simp only [scoreDescLe, decide_eq_true_eq] at *
        exact le_trans hbc hab
      · intro a b
        simp only [scoreDescLe]
        rcases le_total b.2 a.2 with hle | hle <;> simp [hle]
    have := pairwise_enumFrom sorted 0
      (hs.imp (by intro a b hab; simpa [scoreDescLe] using hab))
    rw [List.enum]
    exact this.imp (by intro a b hab; exact hab)
  · rw [List.map_map]
    have hm : ((sorted.enum.map
        (fun e => ScoredPost.mk e.2.1 e.2.2
          (decide (e.1 < highPerformingCount sorted.length)))).map
        (fun e => e.post)) = sorted.map Prod.fst := by
      rw [List.map_map]
      have : sorted.enum.map Prod.snd = sorted := List.enum_map_snd sorted
      calc sorted.enum.map
            ((fun e => e.post) ∘
              (fun e => ScoredPost.mk e.2.1 e.2.2
                (decide (e.1 < highPerformingCount sorted.length))))
          = (sorted.enum.map Prod.snd).map Prod.fst := by rw [List.map_map]; rfl
        _ = sorted.map Prod.fst := by rw [this]
    rw [List.map_map] at hm
    rw [hm]
    have hperm : sorted.Perm (posts.map (fun post => (post, computeEngagementScore post))) :=
      List.mergeSort_perm _ _
    have h2 := hperm.map Prod.fst
    rw [List.map_map] at h2
    have h3 : (posts.map (Prod.fst ∘ fun post => (post, computeEngagementScore post))) = posts :=
      map_fst_pair _ _
    rw [h3] at h2
    exact h2

/-- The two posts of the spec scenario. -/
def scenarioPost1 : LinkedInPost := ⟨0, none, none, 10, 2, 1, none⟩

/-- The second post of the spec scenario. -/
def scenarioPost2 : LinkedInPost := ⟨1, none, none, 1, 0, 0, none⟩

/-- C2: the engagement score is the weighted sum
`likes*1 + comments*2 + shares*3 + impressions*0.1` with a null impressions
count contributing `0`; on the spec scenario the two posts score 17 and 1 and
only the first is marked high-performing. -/
theorem computeEngagementScore_formula :
    (∀ post : LinkedInPost,
      computeEngagementScore post =
        post.likes_count * 1 + post.comments_count * 2 + post.shares_count * 3 +
          (match post.impressions_count with
           | some i => i * (1 / 10)
           | none => 0)) ∧
    computeEngagementScore scenarioPost1 = 17 ∧
    computeEngagementScore scenarioPost2 = 1 ∧
    (updateEngagementScores [scenarioPost1, scenarioPost2]).map
        (fun e => (e.post.id, e.engagement_score, e.is_high_performing)) =
      [(0, 17, true), (1, 1, false)] := by
  refine ⟨fun post => rfl, by norm_num [computeEngagementScore, scenarioPost1],
    by norm_num [computeEngagementScore, scenarioPost2], ?_⟩
  norm_num [updateEngagementScores, List.mergeSort, computeEngagementScore, scoreDescLe,
    highPerformingCount, scenarioPost1, scenarioPost2, List.splitInTwo, List.merge,
    List.enum, List.enumFrom]
  exact Int.ceil_le.mpr (by norm_num)

/-- C1 witness: the theorem applied to a concrete singleton post list. -/
theorem updateEngagementScores_top_slice_witness :
    ([scenarioPost1] : List LinkedInPost) ≠ [] ∧
    ((updateEngagementScores [scenarioPost1]).countP (fun e => e.is_high_performing) =
        highPerformingCount ([scenarioPost1] : List LinkedInPost).length ∧
    ((updateEngagementScores [scenarioPost1]).filter (fun e => e.is_high_performing)).map
        (fun e => e.post) =
      (((([scenarioPost1] : List LinkedInPost).map
          (fun post => (post, computeEngagementScore post))).mergeSort
          scoreDescLe).take
            (highPerformingCount ([scenarioPost1] : List LinkedInPost).length)).map Prod.fst ∧
    (updateEngagementScores [scenarioPost1]).Pairwise
      (fun a b => b.engagement_score ≤ a.engagement_score) ∧
    ((updateEngagementScores [scenarioPost1]).map (fun e => e.post)).Perm [scenarioPost1] ∧
    highPerformingCount ([scenarioPost1] : List LinkedInPost).length =
      max 1 (Int.toNat ⌈(([scenarioPost1] : List LinkedInPost).length : ℚ) * (3 / 10)⌉)) :=
  ⟨by simp, updateEngagementScores_top_slice [scenarioPost1] (by simp)⟩

/-- C4: a generated style profile's confidence tier is `HIGH` exactly when
there are at least 10 usable candidate post texts and a truthy (non-empty)
about section, `MEDIUM` exactly when not `HIGH` and at least 5 usable texts,
and `LOW` otherwise. -/
theorem styleConfidence_tiers (candidatePosts : List LinkedInPost)
    (profileAbout : Option (List Char)) (lvl : DataConfidenceLevel)
    (h : styleConfidence candidatePosts profileAbout = some lvl) :
    (lvl = .HIGH ↔
      10 ≤ (postTextsOf candidatePosts).length ∧ aboutTruthy profileAbout = true) ∧
    (lvl = .MEDIUM ↔
      ¬(10 ≤ (postTextsOf candidatePosts).length ∧ aboutTruthy profileAbout = true) ∧
      5 ≤ (postTextsOf candidatePosts).length) ∧
    (lvl = .LOW ↔
      ¬(10 ≤ (postTextsOf candidatePosts).length ∧ aboutTruthy profileAbout = true) ∧
      ¬ 5 ≤ (postTextsOf candidatePosts).length) := by
  unfold styleConfidence at h
  split_ifs at h with h0 h1 h2
  · injection h with h
    subst h
    simp only [Bool.and_eq_true, decide_eq_true_eq, ge_iff_le] at h1
    exact ⟨by simp [h1.1, h1.2], by simp [h1.1, h1.2], by simp [h1.1, h1.2]⟩
  · injection h with h
    subst h
    simp only [Bool.and_eq_true, decide_eq_true_eq, ge_iff_le] at h1
    rw [ge_iff_le] at h2
    exact ⟨iff_of_false (by simp) h1, iff_of_true rfl ⟨h1, h2⟩,
      iff_of_false (by simp) (fun hc => hc.2 h2)⟩
  · injection h with h
    subst h
    simp only [Bool.and_eq_true, decide_eq_true_eq, ge_iff_le] at h1
    rw [ge_iff_le] at h2
    exact ⟨iff_of_false (by simp) h1, iff_of_false (by simp) (fun hc => h2 hc.2),
      iff_of_true rfl ⟨h1, h2⟩⟩

/-- A usable candidate post for the C4 witness. -/
def witnessPost (i : Nat) : LinkedInPost :=
  ⟨i, some ("hello world".toList), none, 0, 0, 0, none⟩

/-- C4 witness: five usable texts and no about section give `MEDIUM`. -/
theorem styleConfidence_tiers_witness :
    styleConfidence [witnessPost 0, witnessPost 1, witnessPost 2, witnessPost 3,
        witnessPost 4] none = some .MEDIUM ∧
    (DataConfidenceLevel.MEDIUM = .HIGH ↔
      10 ≤ (postTextsOf [witnessPost 0, witnessPost 1, witnessPost 2, witnessPost 3,
          witnessPost 4]).length ∧ aboutTruthy none = true) ∧
    (DataConfidenceLevel.MEDIUM = .MEDIUM ↔
      ¬(10 ≤ (postTextsOf [witnessPost 0, witnessPost 1, witnessPost 2, witnessPost 3,
          witnessPost 4]).length ∧ aboutTruthy none = true) ∧
      5 ≤ (postTextsOf [witnessPost 0, witnessPost 1, witnessPost 2, witnessPost 3,
          witnessPost 4]).length) ∧
    (DataConfidenceLevel.MEDIUM = .LOW ↔
      ¬(10 ≤ (postTextsOf [witnessPost 0, witnessPost 1, witnessPost 2, witnessPost 3,
          witnessPost 4]).length ∧ aboutTruthy none = true) ∧
      ¬ 5 ≤ (postTextsOf [witnessPost 0, witnessPost 1, witnessPost 2, witnessPost 3,
          witnessPost 4]).length) :=
  ⟨by decide,
   styleConfidence_tiers [witnessPost 0, witnessPost 1, witnessPost 2, witnessPost 3,
     witnessPost 4] none .MEDIUM (by decide)⟩

/-- A parsed style response whose `structure_patterns` is an array of
numbers (not the declared `string[]`) but passes every implemented check. -/
def badStyleRaw : RawStyleJson where
  tone := .jstr ("professional".toList)
  formality_level := .jnum 5
  average_length_words := .jnum 120
  emoji_usage := .jstr ("none".toList)
  structure_patterns := .jarr [.jnum 1]
  hook_patterns := .jarr []
  hashtag_style := .jstr ("no hashtags".toList)
  favorite_topics := .jarr []
  common_phrases_or_cadence_examples := .jarr []
  paragraph_density := .jstr ("compact".toList)

/-- C5 counterexample: a response whose `structure_patterns` field has the
wrong type (an array of numbers where the `StyleJson` contract declares
`string[]`) is accepted by the validation and persisted, because the
implemented check is only `Array.isArray`. -/
theorem styleValidation_accepts_wrong_element_type :
    isStrArray badStyleRaw.structure_patterns = false ∧
    validStyleJson badStyleRaw = true ∧
    analyzeStoreStyle badStyleRaw .LOW [] = .ok [(badStyleRaw, .LOW)] :=
  ⟨rfl, rfl, rfl⟩

/-- C5 (amended): a style-extraction result is rejected with an error, and
nothing is stored, whenever a field fails one of the implemented checks:
`emoji_usage` or `paragraph_density` outside their enums, `tone` or
`hashtag_style` not a string, `formality_level` or `average_length_words`
not a number, or one of the four list fields not an array (element types
are not checked). -/
theorem styleValidation_rejects (parsed : RawStyleJson)
    (confidence : DataConfidenceLevel)
    (stored : List (RawStyleJson × DataConfidenceLevel))
    (h : strIn emojiUsageValues parsed.emoji_usage = false ∨
         strIn paragraphDensityValues parsed.paragraph_density = false ∨
         isStr parsed.tone = false ∨
         isNum parsed.formality_level = false ∨
         isNum parsed.average_length_words = false ∨
         isArr parsed.structure_patterns = false ∨
         isArr parsed.hook_patterns = false ∨
         isStr parsed.hashtag_style = false ∨
         isArr parsed.favorite_topics = false ∨
         isArr parsed.common_phrases_or_cadence_examples = false) :
    analyzeStoreStyle parsed confidence stored = .error "Invalid style JSON structure" := by
  have hv : validStyleJson parsed = false := by
    unfold validStyleJson
    rcases h with h | h | h | h | h | h | h | h | h | h <;> simp [h]
  simp [analyzeStoreStyle, parseStyleResponse, hv]

/-- A parsed style response with an out-of-enum `emoji_usage`. -/
def badEmojiRaw : RawStyleJson where
  tone := .jstr ("professional".toList)
  formality_level := .jnum 5
  average_length_words := .jnum 120
  emoji_usage := .jstr ("lots".toList)
  structure_patterns := .jarr []
  hook_patterns := .jarr []
  hashtag_style := .jstr ("no hashtags".toList)
  favorite_topics := .jarr []
  common_phrases_or_cadence_examples := .jarr []
  paragraph_density := .jstr ("compact".toList)

/-- C5 witness: `emoji_usage = "lots"` is rejected and nothing is stored. -/
theorem styleValidation_rejects_witness :
    analyzeStoreStyle badEmojiRaw .LOW [] = .error "Invalid style JSON structure" :=
  styleValidation_rejects badEmojiRaw .LOW [] (Or.inl rfl)

/-- C6: a classifier response naming an intent outside the closed set
`WRITE_POST / ANALYZE_PROFILE / STRATEGY / OTHER` makes `classifyIntent`
fail with a classification error; it never returns, so no generation path
runs for it and it is never coerced to `OTHER`. -/
theorem classifyIntent_rejects_unknown (parsedIntent : String)
    (h : allowedIntents.contains parsedIntent = false) :
    classifyIntentValidate parsedIntent =
      .error ("Failed to parse intent classification: Invalid intent: " ++ parsedIntent) ∧
    ∀ t, classifyIntentValidate parsedIntent ≠ .ok t := by
  have he : classifyIntentValidate parsedIntent =
      .error ("Failed to parse intent classification: Invalid intent: " ++ parsedIntent) := by
    unfold classifyIntentValidate
    rw [h]
    rfl
  exact ⟨he, fun t hok => by rw [he] at hok; cases hok⟩

/-- C6 witness: the out-of-set intent name `GREETING` is rejected. -/
theorem classifyIntent_rejects_unknown_witness :
    classifyIntentValidate "GREETING" =
      .error ("Failed to parse intent classification: Invalid intent: " ++ "GREETING") ∧
    ∀ t, classifyIntentValidate "GREETING" ≠ .ok t :=
  classifyIntent_rejects_unknown "GREETING" (by decide)

/-- C7: an empty or unparseable validator response yields
`isValid = false` with a non-empty generic claims marker (no exception), and
the caller then takes exactly the same single rewrite pass as for a parsed
response reporting unsupported claims. -/
theorem validateAgainstFacts_failure_path (raw draft rewritten : String)
    (r : ValidatorResponse) (h : r = .empty ∨ r = .unparseable raw) :
    (validateAgainstFacts r).isValid = false ∧
    (validateAgainstFacts r).unsupportedClaims ≠ [] ∧
    writePostFinalText draft rewritten r = (rewritten, 1) ∧
    writePostFinalText draft rewritten (.parsed (some ["unsupported claim"]) false) =
      (rewritten, 1) := by
  rcases h with h | h <;> subst h <;>
    exact ⟨rfl, by simp [validateAgainstFacts], rfl, rfl⟩

/-- C7 witness: the empty validator response at concrete texts. -/
theorem validateAgainstFacts_failure_path_witness :
    (validateAgainstFacts .empty).isValid = false ∧
    (validateAgainstFacts .empty).unsupportedClaims ≠ [] ∧
    writePostFinalText "draft" "rewritten" .empty = ("rewritten", 1) ∧
    writePostFinalText "draft" "rewritten" (.parsed (some ["unsupported claim"]) false) =
      ("rewritten", 1) :=
  validateAgainstFacts_failure_path "" "draft" "rewritten" .empty (Or.inl rfl)

/-- C8 counterexample: in the `orchestrator.ts` implementation of
`orchestrateResponse` the retrieval call is not wrapped in try/catch, so a
throwing Retrieval Engine aborts the turn (the error propagates instead of
degrading to an empty retrieved-posts list). -/
theorem orchestratorTs_retrieval_error_propagates :
    ragStepOrchestratorTs true (.err "retrieval failed") = .error "retrieval failed" := rfl

/-- C8 (amended): in the shared-builder `orchestrateResponse`
(`prompt-builder.ts` lines 732-743) a throwing Retrieval Engine is caught and
the turn continues with an empty retrieved-posts list, and with no other
grounding data the FACTS block degrades to the no-verified-data framing; the
near-duplicate `orchestrateResponse` in `orchestrator.ts` does not catch, so
there the retrieval error propagates. -/
theorem promptBuilder_retrieval_error_caught (requires_rag : Bool) (msg : String)
    (fmtDate : Int → String) (fmtScore : ℚ → String) :
    ragStepPromptBuilder requires_rag (.err msg) = [] ∧
    buildFactsBlock fmtDate fmtScore [] none [] [] = noVerifiedDataFacts ∧
    ragStepOrchestratorTs true (.err msg) = .error msg := by
  refine ⟨?_, rfl, rfl⟩
  cases requires_rag <;> rfl

/-- C9: when a stored embedding and the query embedding have different
lengths, the similarity computation truncates both to the shared minimum
length before the dot product and the squared norms, the entry is still
ranked (no error), and the single-item ranking completes and returns it. -/
theorem similarityEntryFor_truncation (queryEmbedding embedding : List ℚ) (postId : Nat)
    (hne : embedding.length ≠ queryEmbedding.length)
    (he : embedding ≠ []) (hq : queryEmbedding ≠ [])
    (h1 : dotQ (embedding.take (min embedding.length queryEmbedding.length))
        (embedding.take (min embedding.length queryEmbedding.length)) ≠ 0)
    (h2 : dotQ (queryEmbedding.take (min embedding.length queryEmbedding.length))
        (queryEmbedding.take (min embedding.length queryEmbedding.length)) ≠ 0) :
    similarityEntryFor queryEmbedding postId embedding = some
      { postId := postId
        dotProduct := dotQ (embedding.take (min embedding.length queryEmbedding.length))
          (queryEmbedding.take (min embedding.length queryEmbedding.length))
        normSq1 := dotQ (embedding.take (min embedding.length queryEmbedding.length))
          (embedding.take (min embedding.length queryEmbedding.length))
        normSq2 := dotQ (queryEmbedding.take (min embedding.length queryEmbedding.length))
          (queryEmbedding.take (min embedding.length queryEmbedding.length)) } ∧
    retrieveRelevantPosts queryEmbedding [(postId, embedding)] 5 = [postId] := by
  have hel : embedding.length ≠ 0 := by simpa using he
  have hql : queryEmbedding.length ≠ 0 := by simpa using hq
  have hmin : ¬ min embedding.length queryEmbedding.length = 0 := by omega
  have hentry : similarityEntryFor queryEmbedding postId embedding = some
      { postId := postId
        dotProduct := dotQ (embedding.take (min embedding.length queryEmbedding.length))
          (queryEmbedding.take (min embedding.length queryEmbedding.length))
        normSq1 := dotQ (embedding.take (min embedding.length queryEmbedding.length))
          (embedding.take (min embedding.length queryEmbedding.length))
        normSq2 := dotQ (queryEmbedding.take (min embedding.length queryEmbedding.length))
          (queryEmbedding.take (min embedding.length queryEmbedding.length)) } := by
    unfold similarityEntryFor
    simp only [hel, if_false, hmin, if_false]
    have hnorm : ¬ (dotQ (embedding.take (min embedding.length queryEmbedding.length))
        (embedding.take (min embedding.length queryEmbedding.length)) = 0 ∨
        dotQ (queryEmbedding.take (min embedding.length queryEmbedding.length))
          (queryEmbedding.take (min embedding.length queryEmbedding.length)) = 0) := by
      push_neg
      exact ⟨h1, h2⟩
    simp only [hnorm, if_false]
  refine ⟨hentry, ?_⟩
  unfold retrieveRelevantPosts computeSimilarities
  simp [hentry]

/-- C9 witness: stored embedding `[1]` against query `[1, 0]`. -/
theorem similarityEntryFor_truncation_witness :
    similarityEntryFor [1, 0] 7 [1] = some
      { postId := 7
        dotProduct := dotQ (([1] : List ℚ).take (min ([1] : List ℚ).length ([1, 0] : List ℚ).length))
          (([1, 0] : List ℚ).take (min ([1] : List ℚ).length ([1, 0] : List ℚ).length))
        normSq1 := dotQ (([1] : List ℚ).take (min ([1] : List ℚ).length ([1, 0] : List ℚ).length))
          (([1] : List ℚ).take (min ([1] : List ℚ).length ([1, 0] : List ℚ).length))
        normSq2 := dotQ (([1, 0] : List ℚ).take (min ([1] : List ℚ).length ([1, 0] : List ℚ).length))
          (([1, 0] : List ℚ).take (min ([1] : List ℚ).length ([1, 0] : List ℚ).length)) } ∧
    retrieveRelevantPosts [1, 0] [(7, [1])] 5 = [7] :=
  similarityEntryFor_truncation [1, 0] [1] 7 (by decide) (by decide) (by decide)
    (by simp [dotQ]) (by simp [dotQ])

/-- C10: every row created by `storePostsData` has a non-whitespace
`raw_text` and a `text` equal to `cleanLinkedInPostText` of that `raw_text`;
a record whose `text` is missing, not a string, or whitespace-only is skipped
and contributes no row. -/
theorem storePostsData_row_invariants (postsData l1 l2 : List ApifyLinkedinPost)
    (bad : ApifyLinkedinPost) (hbad : ∀ s, bad.text = .jstr s → jsTrim s = []) :
    (∀ row ∈ storePostsData postsData,
      row.raw_text ≠ [] ∧ row.text = cleanLinkedInPostText row.raw_text) ∧
    storePostsData (l1 ++ bad :: l2) = storePostsData (l1 ++ l2) := by
  constructor
  · intro row hrow
    rcases List.mem_filterMap.mp hrow with ⟨postData, _, heq⟩
    rcases hr : rawTextOf postData with _ | rawText
    · rw [hr] at heq
      cases heq
    · rw [hr] at heq
      have hraw : row.raw_text = rawText := by
        cases heq
        rfl
      have htext : row.text = cleanLinkedInPostText rawText := by
        cases heq
        rfl
      have htrim : jsTrim rawText ≠ [] := by
        unfold rawTextOf at hr
        rcases ht : postData.text with _ | _ | _ | s | _ | _ <;> simp only [ht] at hr <;>
          try exact Option.noConfusion hr
        by_cases hlen : (jsTrim s).length > 0
        · rw [if_pos hlen] at hr
          injection hr with hr
          subst hr
          intro hc
          rw [hc] at hlen
          exact absurd hlen (by simp)
        · rw [if_neg hlen] at hr
          cases hr
      refine ⟨?_, by rw [hraw, htext]⟩
      rw [hraw]
      intro hc
      subst hc
      exact htrim rfl
  · have hskip : rawTextOf bad = none := by
      unfold rawTextOf
      rcases ht : bad.text with _ | _ | _ | s | _ | _ <;> try rfl
      have := hbad s ht
      simp [this]
    unfold storePostsData
    rw [List.filterMap_append, List.filterMap_append, List.filterMap_cons, hskip]

/-- Concrete records for the C10 witness. -/
def goodRecord : ApifyLinkedinPost :=
  ⟨.jstr ("Hello   world".toList), .jnull, .jnum 3, .jnum 1, .jnum 0⟩

/-- A record with whitespace-only text, skipped by ingestion. -/
def badRecord : ApifyLinkedinPost :=
  ⟨.jstr ("   ".toList), .jnull, .jnum 2, .jnum 0, .jnum 0⟩

/-- C10 witness: the invariants at a concrete record list, and the skip of a
whitespace-only record. -/
theorem storePostsData_row_invariants_witness :
    (∀ row ∈ storePostsData [goodRecord, badRecord],
      row.raw_text ≠ [] ∧ row.text = cleanLinkedInPostText row.raw_text) ∧
    storePostsData ([goodRecord] ++ badRecord :: [goodRecord]) =
      storePostsData ([goodRecord] ++ [goodRecord]) :=
  storePostsData_row_invariants [goodRecord, badRecord] [goodRecord] [goodRecord]
    badRecord (fun s hs => by injection hs with hs; rw [← hs]; rfl)

/-! ### Idempotence of `cleanLinkedInPostText` (claim C3)

The proof proceeds in layers: character-level facts about the whitespace
class and case folding; monotonicity of the regex-fragment recognisers under
list prefixes; the key transfer lemma (a match is determined by the leading
non-whitespace run); absence of matches in the scanner's output; and
idempotence of whitespace normalisation. -/

/-- JavaScript whitespace characters are unchanged by ASCII case folding. -/
lemma ws_lcc {c : Char} (h : isJsWs c = true) : lcc c = c := by
  unfold lcc
  rw [if_neg]
  simp only [isJsWs, Bool.or_eq_true, Bool.and_eq_true, decide_eq_true_eq] at h
  intro hc
  omega

/-- A character whose case folding is not whitespace is not whitespace. -/
lemma lcc_nonWs {c : Char} (h : isJsWs (lcc c) = false) : isJsWs c = false := by
  by_cases hc : isJsWs c = true
  · rw [ws_lcc hc] at h
    rw [h] at hc
    cases hc
  · simpa using hc

/-- A successful case-insensitive prefix match needs at least the pattern's
length. -/
lemma startsWithCI_length {pat l : List Char} (h : startsWithCI pat l = true) :
    pat.length ≤ l.length := by
  unfold startsWithCI at h
  rw [beq_iff_eq] at h
  have := congrArg List.length h
  simp only [List.length_map, List.length_take] at this
  omega

/-- The characters consumed by a case-insensitive match of a pattern of
non-whitespace characters are non-whitespace. -/
lemma startsWithCI_nonWs (pat : List Char) {l : List Char}
    (hpat : ∀ c ∈ pat, isJsWs c = false) (h : startsWithCI pat l = true) :
    ∀ c ∈ l.take pat.length, isJsWs c = false := by
  unfold startsWithCI at h
  rw [beq_iff_eq] at h
  intro c hc
  apply lcc_nonWs
  exact hpat (lcc c) (h ▸ List.mem_map_of_mem lcc hc)

/-- A case-insensitive prefix match only looks at the first
`pat.length` characters. -/
lemma startsWithCI_congr (pat : List Char) {l m : List Char}
    (h : l.take pat.length = m.take pat.length) :
    startsWithCI pat l = startsWithCI pat m := by
  unfold startsWithCI
  rw [h]

/-- A case-insensitive prefix match survives extending the list. -/
lemma startsWithCI_mono {pat a b : List Char} (hab : a <+: b)
    (h : startsWithCI pat a = true) : startsWithCI pat b = true := by
  rcases hab with ⟨t, rfl⟩
  rw [← h]
  apply Eq.symm
  apply startsWithCI_congr
  exact (List.take_append_of_le_length (startsWithCI_length h)).symm

/-- A nonempty pattern match pins down the case folding of the head. -/
lemma startsWithCI_head {p : Char} {ps : List Char} {c : Char} {l : List Char}
    (h : startsWithCI (p :: ps) (c :: l) = true) : lcc c = p := by
  unfold startsWithCI at h
  rw [beq_iff_eq] at h
  simp only [List.length_cons, List.take_succ_cons, List.map_cons,
    List.cons.injEq] at h
  exact h.1

/-- Splitting `takeWhile` after `k` characters that all satisfy `p`. -/
lemma takeWhile_append_of_all (p : Char → Bool) :
    ∀ (k : Nat) (l : List Char), k ≤ l.length → (∀ c ∈ l.take k, p c = true) →
      l.takeWhile p = l.take k ++ (l.drop k).takeWhile p
  | 0, l, _, _ => by simp
  | k + 1, [], h, _ => by simp at h
  | k + 1, c :: rest, h, hall => by
    have hc : p c = true := hall c (by simp)
    simp only [List.take_succ_cons, List.drop_succ_cons, List.takeWhile_cons, hc,
      if_true, List.cons_append]
    congr 1
    exact takeWhile_append_of_all p k rest (by simpa using h)
      (fun d hd => hall d (by simp [hd]))

/-- Under the same hypotheses, `takeWhile` extends at least `k` characters
and agrees with `take k` there. -/
lemma takeWhile_take_of_all {p : Char → Bool} {k : Nat} {l : List Char}
    (hk : k ≤ l.length) (hall : ∀ c ∈ l.take k, p c = true) :
    (l.takeWhile p).take k = l.take k ∧ k ≤ (l.takeWhile p).length := by
  rw [takeWhile_append_of_all p k l hk hall]
  have hlen : (l.take k).length = k := by
    rw [List.length_take]
    omega
  constructor
  · rw [List.take_append_of_le_length (by omega), List.take_take]
    congr 1
    omega
  · rw [List.length_append]
    omega

/-- The branch taken by a successful `schemeLen`. -/
lemma schemeLen_cases {l : List Char} {k : Nat} (h : schemeLen l = some k) :
    (k = 8 ∧ startsWithCI ("https://".toList) l = true) ∨
    (k = 7 ∧ startsWithCI ("https://".toList) l = false ∧
      startsWithCI ("http://".toList) l = true) := by
  unfold schemeLen at h
  split_ifs at h with h1 h2
  · injection h with h
    exact Or.inl ⟨h.symm, h1⟩
  · injection h with h
    exact Or.inr ⟨h.symm, by simpa using h1, h2⟩

/-- Scheme characters are within the list and non-whitespace. -/
lemma schemeLen_nonWs {l : List Char} {k : Nat} (h : schemeLen l = some k) :
    k ≤ l.length ∧ ∀ c ∈ l.take k, isJsWs c = false := by
  have h8 : ("https://".toList).length = 8 := rfl
  have h7 : ("http://".toList).length = 7 := rfl
  rcases schemeLen_cases h with ⟨rfl, hs⟩ | ⟨rfl, _, hs⟩
  · refine ⟨by have := startsWithCI_length hs; omega, ?_⟩
    have := startsWithCI_nonWs ("https://".toList) (by decide) hs
    rw [h8] at this
    exact this
  · refine ⟨by have := startsWithCI_length hs; omega, ?_⟩
    have := startsWithCI_nonWs ("http://".toList) (by decide) hs
    rw [h7] at this
    exact this

/-- `schemeLen` is determined by the leading non-whitespace run: if the run
of `a` is a prefix of the run of `b` and `a` has a scheme, `b` has the same
scheme and agrees with `a` on its characters. -/
lemma schemeLen_transfer {a b : List Char} {k : Nat}
    (hpre : (a.takeWhile (fun d => !isJsWs d)) <+: (b.takeWhile (fun d => !isJsWs d)))
    (h : schemeLen a = some k) :
    schemeLen b = some k ∧ b.take k = a.take k := by
  obtain ⟨hk, hnw⟩ := schemeLen_nonWs h
  have hall : ∀ c ∈ a.take k, (fun d => !isJsWs d) c = true := by
    intro c hc
    simp [hnw c hc]
  obtain ⟨hatake, halen⟩ := takeWhile_take_of_all hk hall
  have hbtw : (b.takeWhile (fun d => !isJsWs d)).take k = a.take k := by
    rcases hpre with ⟨t, ht⟩
    rw [← ht, List.take_append_of_le_length halen, hatake]
  have hblen : k ≤ (b.takeWhile (fun d => !isJsWs d)).length := by
    rcases hpre with ⟨t, ht⟩
    have := congrArg List.length ht
    simp only [List.length_append] at this
    omega
  have hbtake : b.take k = a.take k := by
    rcases List.takeWhile_prefix (fun d => !isJsWs d) (l := b) with ⟨t, ht⟩
    rw [← ht, List.take_append_of_le_length hblen, hbtw]
  have h8 : ("https://".toList).length = 8 := rfl
  have h7 : ("http://".toList).length = 7 := rfl
  refine ⟨?_, hbtake⟩
  rcases schemeLen_cases h with ⟨rfl, hs⟩ | ⟨rfl, hs8, hs7⟩
  · have hb : startsWithCI ("https://".toList) b = true := by
      rw [startsWithCI_congr ("https://".toList)
        (show b.take ("https://".toList).length = a.take ("https://".toList).length by
          rw [h8]
          exact hbtake)]
      exact hs
    unfold schemeLen
    rw [if_pos hb]
  · have hb7 : startsWithCI ("http://".toList) b = true := by
      rw [startsWithCI_congr ("http://".toList)
        (show b.take ("http://".toList).length = a.take ("http://".toList).length by
          rw [h7]
          exact hbtake)]
      exact hs7
    have hb8 : startsWithCI ("https://".toList) b = false := by
      by_contra hx
      rw [Bool.not_eq_false] at hx
      unfold startsWithCI at hx hb7
      rw [beq_iff_eq] at hx hb7
      have h1 : ((b.take ("https://".toList).length).map lcc).take 7 =
          ("https://".toList).take 7 := by rw [hx]
      rw [← List.map_take, List.take_take, h8] at h1
      have h2 : (min 7 8) = ("http://".toList).length := by
        rw [h7]
        omega
      rw [h2, hb7] at h1
      exact absurd h1 (by decide)
    unfold schemeLen
    rw [if_neg (by simp only [Bool.not_eq_true]; exact hb8), if_pos hb7]

/-- Prefix extension preserves the `[?&]keyword` fragment recogniser. -/
lemma kwAt_mono {x y : List Char} (hxy : x <+: y) (h : kwAt x = true) :
    kwAt y = true := by
  rcases x with _ | ⟨c, x'⟩
  · cases h
  · rcases hxy with ⟨t, rfl⟩
    simp only [List.cons_append, kwAt, Bool.and_eq_true] at h ⊢
    refine ⟨h.1, ?_⟩
    have h2 := h.2
    unfold trackingKeywordAt at h2 ⊢
    simp only [Bool.or_eq_true] at h2 ⊢
    rcases h2 with ((h2 | h2) | h2) | h2
    · exact Or.inl (Or.inl (Or.inl (startsWithCI_mono (List.prefix_append x' t) h2)))
    · exact Or.inl (Or.inl (Or.inr (startsWithCI_mono (List.prefix_append x' t) h2)))
    · exact Or.inl (Or.inr (startsWithCI_mono (List.prefix_append x' t) h2))
    · exact Or.inr (startsWithCI_mono (List.prefix_append x' t) h2)

/-- Prefix extension preserves `kwFrom`. -/
lemma kwFrom_mono : ∀ {x y : List Char}, x <+: y → kwFrom x = true → kwFrom y = true
  | [], _, _, h => by cases h
  | c :: x', y, hxy, h => by
    rcases hxy with ⟨t, rfl⟩
    simp only [List.cons_append, kwFrom, Bool.and_eq_true, Bool.or_eq_true] at h ⊢
    refine ⟨h.1, ?_⟩
    rcases h.2 with h2 | h2
    · exact Or.inl (kwAt_mono (List.prefix_append x' t) h2)
    · exact Or.inr (kwFrom_mono (List.prefix_append x' t) h2)

/-- The four tracking keywords consist of non-whitespace characters. -/
lemma trackingKeywordAt_tw_of {x : List Char} (h : trackingKeywordAt x = true) :
    trackingKeywordAt (x.takeWhile (fun d => !isJsWs d)) = true := by
  unfold trackingKeywordAt at h ⊢
  simp only [Bool.or_eq_true] at h ⊢
  have core : ∀ pat : List Char, (∀ c ∈ pat, isJsWs c = false) →
      startsWithCI pat x = true →
      startsWithCI pat (x.takeWhile (fun d => !isJsWs d)) = true := by
    intro pat hpat hs
    have hlen := startsWithCI_length hs
    have hnw := startsWithCI_nonWs pat hpat hs
    have hall : ∀ c ∈ x.take pat.length, (fun d => !isJsWs d) c = true := by
      intro c hc
      simp [hnw c hc]
    obtain ⟨htake, _⟩ := takeWhile_take_of_all hlen hall
    rw [startsWithCI_congr pat htake]
    exact hs
  rcases h with ((h | h) | h) | h
  · exact Or.inl (Or.inl (Or.inl (core _ (by decide) h)))
  · exact Or.inl (Or.inl (Or.inr (core _ (by decide) h)))
  · exact Or.inl (Or.inr (core _ (by decide) h))
  · exact Or.inr (core _ (by decide) h)

/-- `kwAt` is determined by the leading non-whitespace run. -/
lemma kwAt_tw (x : List Char) :
    kwAt (x.takeWhile (fun d => !isJsWs d)) = kwAt x := by
  rcases hk : kwAt x with _ | _
  · by_contra hx
    rw [Bool.not_eq_false] at hx
    have := kwAt_mono ( List.takeWhile_prefix (fun d => !isJsWs d)) hx
    rw [this] at hk
    cases hk
  · rcases x with _ | ⟨c, rest⟩
    · cases hk
    · simp only [kwAt, Bool.and_eq_true, Bool.or_eq_true, beq_iff_eq] at hk
      have hcws : isJsWs c = false := by
        rcases hk.1 with rfl | rfl <;> decide
      simp only [List.takeWhile_cons, hcws, Bool.not_false, if_true, kwAt,
        Bool.and_eq_true, Bool.or_eq_true, beq_iff_eq]
      exact ⟨hk.1, trackingKeywordAt_tw_of hk.2⟩

/-- `kwFrom` is determined by the leading non-whitespace run. -/
lemma kwFrom_tw : ∀ (x : List Char),
    kwFrom (x.takeWhile (fun d => !isJsWs d)) = kwFrom x
  | [] => rfl
  | c :: rest => by
    rcases hws : isJsWs c with _ | _
    · simp only [List.takeWhile_cons, hws, Bool.not_false, if_true, kwFrom,
        kwAt_tw rest, kwFrom_tw rest]
    · simp only [List.takeWhile_cons, hws, Bool.not_true, if_false, kwFrom,
        Bool.false_and]

/-- The transfer lemma: a match is determined by the leading non-whitespace
run, monotonically in the prefix order on runs. -/
lemma matchesAt_transfer {a b : List Char}
    (hpre : (a.takeWhile (fun d => !isJsWs d)) <+: (b.takeWhile (fun d => !isJsWs d)))
    (h : matchesAt a = true) : matchesAt b = true := by
  unfold matchesAt at h ⊢
  rcases hs : schemeLen a with _ | k
  · simp only [hs] at h
    cases h
  · simp only [hs] at h
    obtain ⟨hsb, htake⟩ := schemeLen_transfer hpre hs
    simp only [hsb]
    obtain ⟨hka, hnwa⟩ := schemeLen_nonWs hs
    obtain ⟨hkb, hnwb⟩ := schemeLen_nonWs hsb
    have hsplit_a : a.takeWhile (fun d => !isJsWs d) =
        a.take k ++ (a.drop k).takeWhile (fun d => !isJsWs d) :=
      takeWhile_append_of_all _ k a hka (fun c hc => by simp [hnwa c hc])
    have hsplit_b : b.takeWhile (fun d => !isJsWs d) =
        a.take k ++ (b.drop k).takeWhile (fun d => !isJsWs d) := by
      rw [← htake]
      exact takeWhile_append_of_all _ k b hkb (fun c hc => by simp [hnwb c hc])
    have hpre2 : ((a.drop k).takeWhile (fun d => !isJsWs d)) <+:
        ((b.drop k).takeWhile (fun d => !isJsWs d)) := by
      rcases hpre with ⟨t, ht⟩
      rw [hsplit_a, hsplit_b, List.append_assoc] at ht
      exact ⟨t, List.append_cancel_left ht⟩
    rw [← kwFrom_tw (b.drop k)]
    exact kwFrom_mono hpre2 (by rw [kwFrom_tw]; exact h)

/-- Unfolding equation for the scanner on `[]`. -/
lemma removeTrackingUrls_nil : removeTrackingUrls [] = [] := by
  rw [removeTrackingUrls]

/-- Unfolding equation for the scanner on `c :: rest`. -/
lemma removeTrackingUrls_cons (c : Char) (rest : List Char) :
    removeTrackingUrls (c :: rest) =
      if matchesAt (c :: rest) then
        removeTrackingUrls (rest.dropWhile (fun d => !isJsWs d))
      else c :: removeTrackingUrls rest := by
  rw [removeTrackingUrls]

/-- No position of `l` starts a match of the tracking-URL regex. -/
def NoMatch (l : List Char) : Prop := ∀ i, matchesAt (l.drop i) = false

/-- The empty string has no match. -/
lemma noMatch_nil : NoMatch [] := by
  intro i
  rw [List.drop_nil]
  decide

/-- `NoMatch` restricts to suffixes. -/
lemma noMatch_of_suffix {x l : List Char} (hx : x <:+ l) (h : NoMatch l) :
    NoMatch x := by
  rcases hx with ⟨t, rfl⟩
  intro i
  have h2 := h (t.length + i)
  rwa [List.drop_append] at h2

/-- Prefixes are preserved by `takeWhile`. -/
lemma takeWhile_prefix_mono {p : Char → Bool} :
    ∀ {x y : List Char}, x <+: y → x.takeWhile p <+: y.takeWhile p
  | [], _, _ => by simp
  | c :: x', y, h => by
    rcases h with ⟨t, rfl⟩
    by_cases hp : p c
    · simp only [List.cons_append, List.takeWhile_cons, hp, if_true]
      rcases takeWhile_prefix_mono (p := p) (List.prefix_append x' t) with ⟨u, hu⟩
      exact ⟨u, by rw [List.cons_append, hu]⟩
    · simp [List.cons_append, List.takeWhile_cons, hp]

/-- `NoMatch` restricts to prefixes. -/
lemma noMatch_of_front {x l : List Char} (hx : x <+: l) (h : NoMatch l) :
    NoMatch x := by
  intro i
  by_contra hc
  rw [Bool.not_eq_false] at hc
  have hdp : x.drop i <+: l.drop i := by
    rcases hx with ⟨t, rfl⟩
    by_cases hi : i ≤ x.length
    · rw [List.drop_append_of_le_length hi]
      exact List.prefix_append _ _
    · rw [List.drop_eq_nil_of_le (by omega)]
      exact List.nil_prefix
  have h2 := matchesAt_transfer (takeWhile_prefix_mono hdp) hc
  rw [h i] at h2
  cases h2

/-- The head of the remainder of `dropWhile` fails the predicate. -/
lemma dropWhile_head_not {p : Char → Bool} :
    ∀ {l : List Char} {c : Char} {t : List Char},
      l.dropWhile p = c :: t → p c = false
  | [], c, t, h => by cases h
  | a :: l', c, t, h => by
    by_cases hp : p a
    · rw [List.dropWhile_cons_of_pos hp] at h
      exact dropWhile_head_not h
    · rw [List.dropWhile_cons_of_neg hp] at h
      injection h with h1 _
      subst h1
      simpa using hp

/-- No match can start at a whitespace character. -/
lemma matchesAt_ws_head {w : Char} {zs : List Char} (hw : isJsWs w = true) :
    matchesAt (w :: zs) = false := by
  have hhead : ∀ (ps zs2 : List Char), startsWithCI ('h' :: ps) (w :: zs2) = true → False := by
    intro ps zs2 hx
    have h1 := startsWithCI_head hx
    rw [ws_lcc hw] at h1
    rw [h1] at hw
    exact absurd hw (by decide)
  have h1 : startsWithCI ("https://".toList) (w :: zs) = false := by
    by_contra hx
    rw [Bool.not_eq_false] at hx
    exact hhead _ zs hx
  have h2 : startsWithCI ("http://".toList) (w :: zs) = false := by
    by_contra hx
    rw [Bool.not_eq_false] at hx
    exact hhead _ zs hx
  have hsch : schemeLen (w :: zs) = none := by
    unfold schemeLen
    rw [if_neg (by simp only [Bool.not_eq_true]; exact h1),
      if_neg (by simp only [Bool.not_eq_true]; exact h2)]
  unfold matchesAt
  rw [hsch]

/-- Prepending a common head preserves prefixes. -/
lemma cons_prefix_cons {c : Char} {A B : List Char} (h : A <+: B) :
    (c :: A) <+: (c :: B) := by
  rcases h with ⟨t, rfl⟩
  exact ⟨t, rfl⟩

/-- The leading non-whitespace run of the scanner's output is a prefix of
the input's leading run (a skipped match only removes the rest of a run). -/
lemma takeWhile_removeTrackingUrls :
    ∀ (l : List Char),
      ((removeTrackingUrls l).takeWhile (fun d => !isJsWs d)) <+:
        (l.takeWhile (fun d => !isJsWs d))
  | [] => by
    rw [removeTrackingUrls_nil]
  | c :: rest => by
    rw [removeTrackingUrls_cons]
    by_cases hm : matchesAt (c :: rest)
    · rw [if_pos hm]
      have hz : ((removeTrackingUrls (rest.dropWhile (fun d => !isJsWs d))).takeWhile
          (fun d => !isJsWs d)) = [] := by
        rcases hd : rest.dropWhile (fun d => !isJsWs d) with _ | ⟨w, zs⟩
        · rw [removeTrackingUrls_nil]
          rfl
        · have hw : isJsWs w = true := by
            have := dropWhile_head_not hd
            simpa using this
          rw [removeTrackingUrls_cons, if_neg (by simp [matchesAt_ws_head hw])]
          simp [List.takeWhile_cons, hw]
      rw [hz]
      exact List.nil_prefix
    · rw [if_neg hm]
      by_cases hws : isJsWs c
      · simp [List.takeWhile_cons, hws]
      · simp only [List.takeWhile_cons, hws, Bool.not_false, if_true]
        exact cons_prefix_cons (takeWhile_removeTrackingUrls rest)

/-- The scanner's output contains no match. -/
lemma noMatch_removeTrackingUrls : ∀ (l : List Char), NoMatch (removeTrackingUrls l)
  | [] => by
    rw [removeTrackingUrls_nil]
    exact noMatch_nil
  | c :: rest => by
    rw [removeTrackingUrls_cons]
    by_cases hm : matchesAt (c :: rest)
    · rw [if_pos hm]
      exact noMatch_removeTrackingUrls (rest.dropWhile (fun d => !isJsWs d))
    · rw [if_neg hm]
      intro i
      match i with
      | 0 =>
        rw [List.drop_zero]
        by_contra hc
        rw [Bool.not_eq_false] at hc
        have hpre : ((c :: removeTrackingUrls rest).takeWhile (fun d => !isJsWs d)) <+:
            ((c :: rest).takeWhile (fun d => !isJsWs d)) := by
          by_cases hws : isJsWs c
          · simp [List.takeWhile_cons, hws]
          · simp only [List.takeWhile_cons, hws, Bool.not_false, if_true]
            exact cons_prefix_cons (takeWhile_removeTrackingUrls rest)
        have h2 := matchesAt_transfer hpre hc
        rw [h2] at hm
        exact hm rfl
      | Nat.succ j =>
        have h2 := noMatch_removeTrackingUrls rest j
        simpa using h2
termination_by l => l.length
decreasing_by
  · exact Nat.lt_succ_of_le (List.dropWhile_sublist _).length_le
  · simp

/-- The scanner is the identity on match-free strings. -/
lemma removeTrackingUrls_of_noMatch :
    ∀ {l : List Char}, NoMatch l → removeTrackingUrls l = l
  | [], _ => removeTrackingUrls_nil
  | c :: rest, h => by
    have h0 : matchesAt (c :: rest) = false := by
      have := h 0
      rwa [List.drop_zero] at this
    rw [removeTrackingUrls_cons, if_neg (by simp [h0])]
    congr 1
    exact removeTrackingUrls_of_noMatch (fun i => by simpa using h (i + 1))

set_option maxHeartbeats 1000000 in
/-- Unfolding equation for `collapseWs` on `[]`. -/
lemma collapseWs_nil : collapseWs [] = [] := by
  unfold collapseWs
  rfl

set_option maxHeartbeats 1000000 in
/-- Unfolding equation for `collapseWs` on `c :: rest`. -/
lemma collapseWs_cons (c : Char) (rest : List Char) :
    collapseWs (c :: rest) =
      if isJsWs c then ' ' :: collapseWs (rest.dropWhile isJsWs)
      else c :: collapseWs rest := by
  conv_lhs => unfold collapseWs

/-- Collapsing whitespace preserves the leading non-whitespace run. -/
lemma takeWhile_collapseWs : ∀ (l : List Char),
    (collapseWs l).takeWhile (fun d => !isJsWs d) = l.takeWhile (fun d => !isJsWs d)
  | [] => by rw [collapseWs_nil]
  | c :: rest => by
    rw [collapseWs_cons]
    by_cases hws : isJsWs c
    · rw [if_pos hws]
      have hsp : isJsWs ' ' = true := by decide
      simp [List.takeWhile_cons, hws, hsp]
    · rw [if_neg hws]
      simp only [List.takeWhile_cons, hws, Bool.not_false, if_true]
      rw [takeWhile_collapseWs rest]

/-- `NoMatch` is preserved by whitespace collapsing. -/
lemma noMatch_collapseWs : ∀ (l : List Char), NoMatch l → NoMatch (collapseWs l)
  | [], _ => by
    rw [collapseWs_nil]
    exact noMatch_nil
  | c :: rest, h => by
    rw [collapseWs_cons]
    by_cases hws : isJsWs c
    · rw [if_pos hws]
      intro i
      match i with
      | 0 =>
        rw [List.drop_zero]
        exact matchesAt_ws_head (by decide)
      | Nat.succ j =>
        have hnm : NoMatch (rest.dropWhile isJsWs) :=
          noMatch_of_suffix ((List.dropWhile_suffix isJsWs).trans (List.suffix_cons c rest)) h
        have h2 := noMatch_collapseWs (rest.dropWhile isJsWs) hnm j
        simpa using h2
    · rw [if_neg hws]
      intro i
      match i with
      | 0 =>
        rw [List.drop_zero]
        by_contra hc
        rw [Bool.not_eq_false] at hc
        have hpre : ((c :: collapseWs rest).takeWhile (fun d => !isJsWs d)) <+:
            ((c :: rest).takeWhile (fun d => !isJsWs d)) := by
          simp only [List.takeWhile_cons, hws, Bool.not_false, if_true]
          rw [takeWhile_collapseWs rest]
        have h2 := matchesAt_transfer hpre hc
        have h0 := h 0
        rw [List.drop_zero] at h0
        rw [h0] at h2
        cases h2
      | Nat.succ j =>
        have hrest : NoMatch rest := noMatch_of_suffix (List.suffix_cons c rest) h
        have h2 := noMatch_collapseWs rest hrest j
        simpa using h2
termination_by l => l.length
decreasing_by
  · exact Nat.lt_succ_of_le (List.dropWhile_sublist _).length_le
  · simp

/-- Reversed `dropWhile` of a reversed list is a prefix of the original. -/
lemma reverse_dropWhile_reverse_front (p : Char → Bool) (u : List Char) :
    ((u.reverse.dropWhile p).reverse) <+: u := by
  have h2 := List.reverse_prefix.mpr (List.dropWhile_suffix p (l := u.reverse))
  rwa [List.reverse_reverse] at h2

/-- `jsTrim` of a list is a prefix of the list with its leading whitespace
removed. -/
lemma jsTrim_prefix_dropWhile (m : List Char) : jsTrim m <+: m.dropWhile isJsWs :=
  reverse_dropWhile_reverse_front isJsWs (m.dropWhile isJsWs)

/-- `NoMatch` is preserved by trimming. -/
lemma noMatch_jsTrim {m : List Char} (h : NoMatch m) : NoMatch (jsTrim m) :=
  noMatch_of_front (jsTrim_prefix_dropWhile m)
    (noMatch_of_suffix (List.dropWhile_suffix isJsWs) h)

/-- `NoMatch` is preserved by whitespace normalisation. -/
lemma noMatch_normalizeWhitespace {m : List Char} (h : NoMatch m) :
    NoMatch (normalizeWhitespace m) := by
  unfold normalizeWhitespace
  exact noMatch_jsTrim (noMatch_collapseWs m h)

/-- `dropWhile` is idempotent. -/
lemma dropWhile_idem {p : Char → Bool} (l : List Char) :
    (l.dropWhile p).dropWhile p = l.dropWhile p := by
  rcases hd : l.dropWhile p with _ | ⟨c, t⟩
  · rfl
  · rw [List.dropWhile_cons_of_neg]
    simp [dropWhile_head_not hd]

/-- `jsTrim` is the identity when neither end carries whitespace. -/
lemma jsTrim_eq_self {z : List Char} (h1 : z.dropWhile isJsWs = z)
    (h2 : z.reverse.dropWhile isJsWs = z.reverse) : jsTrim z = z := by
  unfold jsTrim
  rw [h1, h2, List.reverse_reverse]

/-- `jsTrim` is idempotent. -/
lemma jsTrim_idem (m : List Char) : jsTrim (jsTrim m) = jsTrim m := by
  have hvdrop : (jsTrim m).dropWhile isJsWs = jsTrim m := by
    rcases hvc : jsTrim m with _ | ⟨c, t⟩
    · rfl
    · rw [List.dropWhile_cons_of_neg]
      have hvpre : jsTrim m <+: m.dropWhile isJsWs := jsTrim_prefix_dropWhile m
      rw [hvc] at hvpre
      rcases hvpre with ⟨t2, ht2⟩
      have hc : isJsWs c = false :=
        dropWhile_head_not (l := m)
          (show m.dropWhile isJsWs = c :: (t ++ t2) from by rw [← ht2, List.cons_append])
      simp [hc]
  have hrev : (jsTrim m).reverse.dropWhile isJsWs = (jsTrim m).reverse := by
    have hr : (jsTrim m).reverse = (m.dropWhile isJsWs).reverse.dropWhile isJsWs := by
      unfold jsTrim
      rw [List.reverse_reverse]
    rw [hr]
    exact dropWhile_idem _
  exact jsTrim_eq_self hvdrop hrev

/-- The invariant maintained by `collapseWs`: every whitespace character is
a single space and is not followed by whitespace. -/
def wsCollapsed (l : List Char) : Prop :=
  (∀ c ∈ l, isJsWs c = true → c = ' ') ∧
  List.Chain' (fun a b => isJsWs a = true → isJsWs b = false) l

/-- If a list's head is non-whitespace (or the list is empty), so is the
head of its collapsed form. -/
lemma collapseWs_head_not_ws {z : List Char}
    (hz : ∀ c t, z = c :: t → isJsWs c = false) :
    ∀ b ∈ (collapseWs z).head?, isJsWs b = false := by
  rcases z with _ | ⟨c, t⟩
  · rw [collapseWs_nil]
    intro b hb
    cases hb
  · have hc := hz c t rfl
    rw [collapseWs_cons, if_neg (by simp [hc])]
    intro b hb
    rw [List.head?_cons, Option.mem_some_iff] at hb
    rw [← hb]
    exact hc

/-- `collapseWs` establishes the collapsed invariant. -/
lemma wsCollapsed_collapseWs : ∀ (l : List Char), wsCollapsed (collapseWs l)
  | [] => by
    rw [collapseWs_nil]
    exact ⟨by simp, List.chain'_nil⟩
  | c :: rest => by
    rw [collapseWs_cons]
    by_cases hws : isJsWs c
    · rw [if_pos hws]
      obtain ⟨ih1, ih2⟩ := wsCollapsed_collapseWs (rest.dropWhile isJsWs)
      refine ⟨?_, ?_⟩
      · intro x hx hxw
        rcases List.mem_cons.mp hx with rfl | hx
        · rfl
        · exact ih1 x hx hxw
      · rw [List.chain'_cons']
        refine ⟨?_, ih2⟩
        intro b hb _
        refine collapseWs_head_not_ws ?_ b hb
        intro d t hd
        have := dropWhile_head_not hd
        exact this
    · rw [if_neg hws]
      obtain ⟨ih1, ih2⟩ := wsCollapsed_collapseWs rest
      refine ⟨?_, ?_⟩
      · intro x hx hxw
        rcases List.mem_cons.mp hx with rfl | hx
        · rw [hxw] at hws
          cases hws rfl
        · exact ih1 x hx hxw
      · rw [List.chain'_cons']
        refine ⟨?_, ih2⟩
        intro b _ hcw
        rw [hcw] at hws
        cases hws rfl
termination_by l => l.length
decreasing_by
  · exact Nat.lt_succ_of_le (List.dropWhile_sublist _).length_le
  · simp

/-- `collapseWs` is the identity on collapsed lists. -/
lemma collapseWs_of_wsCollapsed : ∀ {l : List Char}, wsCollapsed l → collapseWs l = l
  | [], _ => collapseWs_nil
  | c :: rest, h => by
    have htail : wsCollapsed rest :=
      ⟨fun x hx => h.1 x (by simp [hx]), (List.chain'_cons'.mp h.2).2⟩
    by_cases hws : isJsWs c
    · rw [collapseWs_cons, if_pos hws]
      have hc : c = ' ' := h.1 c (by simp) hws
      have hdrop : rest.dropWhile isJsWs = rest := by
        rcases hr : rest with _ | ⟨d, t⟩
        · rfl
        · have hd : isJsWs d = false := by
            have hchain := h.2
            rw [hr] at hchain
            exact (List.chain'_cons.mp hchain).1 hws
          rw [List.dropWhile_cons_of_neg (by simp [hd])]
      rw [hdrop, hc]
      congr 1
      exact collapseWs_of_wsCollapsed htail
    · rw [collapseWs_cons, if_neg hws]
      congr 1
      exact collapseWs_of_wsCollapsed htail

/-- The collapsed invariant restricts to prefixes. -/
lemma wsCollapsed_of_front {x l : List Char} (hx : x <+: l) (h : wsCollapsed l) :
    wsCollapsed x :=
  ⟨fun c hc hw => h.1 c (hx.subset hc) hw, List.Chain'.prefix h.2 hx⟩

/-- The collapsed invariant restricts to suffixes. -/
lemma wsCollapsed_of_suffix {x l : List Char} (hx : x <:+ l) (h : wsCollapsed l) :
    wsCollapsed x :=
  ⟨fun c hc hw => h.1 c (hx.subset hc) hw, h.2.suffix hx⟩

/-- Whitespace normalisation is idempotent. -/
lemma normalizeWhitespace_idem (m : List Char) :
    normalizeWhitespace (normalizeWhitespace m) = normalizeWhitespace m := by
  unfold normalizeWhitespace
  have hcoll : wsCollapsed (jsTrim (collapseWs m)) :=
    wsCollapsed_of_front (jsTrim_prefix_dropWhile _)
      (wsCollapsed_of_suffix (List.dropWhile_suffix _) (wsCollapsed_collapseWs m))
  rw [collapseWs_of_wsCollapsed hcoll]
  exact jsTrim_idem _

/-- C3: the cleaned-text transform is idempotent: cleaning an already
cleaned LinkedIn post text returns it unchanged. -/
theorem cleanLinkedInPostText_idempotent (x : List Char) :
    cleanLinkedInPostText (cleanLinkedInPostText x) = cleanLinkedInPostText x := by
  by_cases hx : x = []
  · subst hx
    rfl
  · have hcx : cleanLinkedInPostText x = normalizeWhitespace (removeTrackingUrls x) := by
      unfold cleanLinkedInPostText
      rw [if_neg hx]
    rw [hcx]
    by_cases hye : normalizeWhitespace (removeTrackingUrls x) = []
    · rw [hye]
      rfl
    · have hnm : NoMatch (normalizeWhitespace (removeTrackingUrls x)) :=
        noMatch_normalizeWhitespace (noMatch_removeTrackingUrls x)
      unfold cleanLinkedInPostText
      rw [if_neg hye, removeTrackingUrls_of_noMatch hnm]
      exact normalizeWhitespace_idem _

end MonsterStan
